import Mathlib

/-!
Verification of the Poincaré ball model operations
(`geomstats/geometry/poincare_ball.py`).

Points are real vectors of a fixed dimension `d`, embedded as `Fin d → ℝ`.
The numeric backend's elementwise operations are modelled by exact real
arithmetic: `gs.sum(x**2)` is `sqnorm`, `gs.linalg.norm` is `enorm`,
`gs.einsum` contractions are written pointwise, `gs.isclose(x, 0.)` is the
absolute/relative closeness test with numpy's default tolerances, and
`gs.clip` is `clip`.  Operations that `raise` in the source return
`Except.error` with the source's message.
-/

namespace PoincareBallModel

open Classical

abbrev V (d : ℕ) := Fin d → ℝ

/-- `gs.sum(point ** 2, axis=-1)`: squared Euclidean norm. -/
noncomputable def sqnorm {d : ℕ} (x : V d) : ℝ := ∑ i, x i ^ 2

/-- `gs.einsum('...i,...i->...', a, b)`: Euclidean dot product. -/
noncomputable def dotp {d : ℕ} (a b : V d) : ℝ := ∑ i, a i * b i

/-- `gs.linalg.norm(x, axis=-1)`: Euclidean norm. -/
noncomputable def enorm {d : ℕ} (x : V d) : ℝ := Real.sqrt (sqnorm x)

/-- Module-level constant `TOLERANCE = 1e-6`. -/
noncomputable def TOLERANCE : ℝ := 1e-6

/-- Module-level constant `EPSILON = 1e-6`. -/
noncomputable def EPSILON : ℝ := 1e-6

/-- `gs.isclose(x, y)` with numpy's default tolerances
`atol = 1e-8`, `rtol = 1e-5`. -/
noncomputable def isclose (x y : ℝ) : Prop := |x - y| ≤ 1e-8 + 1e-5 * |y|

/-- `gs.clip(x, lo, hi)`. -/
noncomputable def clip (x lo hi : ℝ) : ℝ := min (max x lo) hi

/-- `PoincareBall.belongs(point, tolerance)`:
squared norm strictly below `1 - tolerance`. -/
def belongs {d : ℕ} (tolerance : ℝ) (point : V d) : Prop :=
  sqnorm point < 1 - tolerance

/-- The message of the `NameError` raised on a domain violation. -/
def domain_error_msg : String := "Points do not belong to the Poincare ball"

/-- The arithmetic part of `PoincareBallMetric.mobius_add` (everything after
the domain check), translated line by line. -/
noncomputable def mobiusAddF {d : ℕ} (point_a point_b : V d) : V d :=
  let norm_point_a := sqnorm point_a
  let norm_point_b := sqnorm point_b
  let sum_prod_a_b := dotp point_a point_b
  let add_num_1 := fun i => (1 + 2 * sum_prod_a_b + norm_point_b) * point_a i
  let add_num_2 := fun i => (1 - norm_point_a) * point_b i
  let add_nominator := fun i => add_num_1 i + add_num_2 i
  let add_denominator := 1 + 2 * sum_prod_a_b + norm_point_a * norm_point_b
  fun i => add_nominator i * (1 / add_denominator)

/-- `PoincareBallMetric.mobius_add`: validates that both points belong to the
ball (default tolerance) and raises otherwise. -/
noncomputable def mobius_add {d : ℕ} (point_a point_b : V d) :
    Except String (V d) :=
  if belongs TOLERANCE point_a ∧ belongs TOLERANCE point_b then
    Except.ok (mobiusAddF point_a point_b)
  else
    Except.error domain_error_msg

/-- `PoincareBallMetric.exp`, translated line by line.  `norm_tan` is the
tangent norm with numerically-zero entries replaced by `EPSILON`; after the
Möbius addition the numerically-zero entries are overridden to `base_point`. -/
noncomputable def exp {d : ℕ} (tangent_vec base_point : V d) :
    Except String (V d) :=
  let norm_base_point := enorm base_point
  let den := 1 - norm_base_point ^ 2
  let lambda_base_point := 1 / den
  let zero_tan := isclose (sqnorm tangent_vec) 0
  let norm_tan := if zero_tan then EPSILON else enorm tangent_vec
  let direction := fun i => tangent_vec i * (1 / norm_tan)
  let factor := Real.tanh (lambda_base_point * norm_tan)
  match mobius_add base_point (fun i => direction i * factor) with
  | Except.error e => Except.error e
  | Except.ok value =>
      Except.ok (if zero_tan then base_point else value)

/-- The operand `direction * factor` passed by `exp` to `mobius_add` when the
tangent vector is not numerically zero. -/
noncomputable def exp_operand {d : ℕ} (tangent_vec base_point : V d) : V d :=
  fun i =>
    (tangent_vec i * (1 / enorm tangent_vec)) *
      Real.tanh ((1 / (1 - enorm base_point ^ 2)) * enorm tangent_vec)

/-- `gs.arctanh`, the backend's inverse hyperbolic tangent. -/
noncomputable def arctanh (x : ℝ) : ℝ := Real.log ((1 + x) / (1 - x)) / 2

/-- `PoincareBallMetric.log`, translated line by line: the Möbius difference,
the closed formula, then the override of numerically-zero differences. -/
noncomputable def log {d : ℕ} (point base_point : V d) :
    Except String (V d) :=
  match mobius_add (fun i => -base_point i) point with
  | Except.error e => Except.error e
  | Except.ok add_base_point =>
      let norm_add := enorm add_base_point
      let norm_base_point := enorm base_point
      let logv := fun i =>
        ((1 - norm_base_point ^ 2) * arctanh norm_add) *
          (add_base_point i / norm_add)
      Except.ok (if isclose norm_add 0 then (fun _ => 0) else logv)

/-- `PoincareBallMetric.dist`, translated line by line (the final
`dist *= self.scale` is the leading factor). -/
noncomputable def dist {d : ℕ} (scale : ℝ) (point_a point_b : V d) : ℝ :=
  let point_a_norm := clip (sqnorm point_a) 0 (1 - EPSILON)
  let point_b_norm := clip (sqnorm point_b) 0 (1 - EPSILON)
  let diff_norm := sqnorm (fun i => point_a i - point_b i)
  let norm_function :=
    1 + 2 * diff_norm / ((1 - point_a_norm) * (1 - point_b_norm))
  scale * Real.log (norm_function + Real.sqrt (norm_function ^ 2 - 1))

/-- `PoincareBallMetric.retraction`: validates the base point, then applies
the first-order correction. -/
noncomputable def retraction {d : ℕ} (tangent_vec base_point : V d) :
    Except String (V d) :=
  if belongs TOLERANCE base_point then
    Except.ok (fun i =>
      base_point i - ((1 - sqnorm base_point) ^ 2 / 4) * tangent_vec i)
  else
    Except.error domain_error_msg

/-- `PoincareBallMetric.inner_product_matrix`: `None` defaults the base point
to the origin; the result is the squared conformal factor times `gs.eye`. -/
noncomputable def inner_product_matrix (d : ℕ) (base_point : Option (V d)) :
    Fin d → Fin d → ℝ :=
  let bp := base_point.getD (fun _ => 0)
  let lambda_base := (2 / (1 - dotp bp bp)) ^ 2
  fun i j => lambda_base * (if i = j then 1 else 0)

/-- The conformal factor `λ(x) = 2 / (1 − ‖x‖²)` named by the spec. -/
noncomputable def conformal_factor {d : ℕ} (x : V d) : ℝ := 2 / (1 - sqnorm x)

/-- The Möbius addition formula exactly as the spec states it:
`[(1 + 2⟨a,b⟩ + ‖b‖²) a + (1 − ‖a‖²) b] / [1 + 2⟨a,b⟩ + ‖a‖²‖b‖²]`. -/
noncomputable def mobius_add_spec_formula {d : ℕ} (a b : V d) : V d :=
  fun i =>
    ((1 + 2 * dotp a b + sqnorm b) * a i + (1 - sqnorm a) * b i) /
      (1 + 2 * dotp a b + sqnorm a * sqnorm b)

/-- The argument of the inverse hyperbolic cosine in `dist`, for points whose
squared norms are not affected by the clipping:
`1 + 2‖a−b‖² / ((1−‖a‖²)(1−‖b‖²))`. -/
noncomputable def tfun {d : ℕ} (a b : V d) : ℝ :=
  1 + 2 * sqnorm (fun i => a i - b i) / ((1 - sqnorm a) * (1 - sqnorm b))

/-- `t + sqrt(t² − 1)`, the quantity whose logarithm `dist` takes
(`exp` of the inverse hyperbolic cosine of `t`). -/
noncomputable def gacosh (t : ℝ) : ℝ := t + Real.sqrt (t ^ 2 - 1)

/-- The Minkowski bilinear form on `ℝ × V d`, used to embed the ball into
the hyperboloid when proving the triangle inequality of `dist`. -/
noncomputable def mdot {d : ℕ} (u v : ℝ × V d) : ℝ :=
  -(u.1 * v.1) + dotp u.2 v.2

/-- The hyperboloid lift of a ball point:
`((1+‖p‖²)/(1−‖p‖²), 2p/(1−‖p‖²))`. -/
noncomputable def lift {d : ℕ} (p : V d) : ℝ × V d :=
  ((1 + sqnorm p) / (1 - sqnorm p), fun i => 2 / (1 - sqnorm p) * p i)

/-- `u - t • v` on `ℝ × V d`. -/
noncomputable def psub {d : ℕ} (u : ℝ × V d) (t : ℝ) (v : ℝ × V d) :
    ℝ × V d :=
  (u.1 - t * v.1, fun i => u.2 i - t * v.2 i)

/-- `u + t • v` on `ℝ × V d`. -/
noncomputable def padd {d : ℕ} (u : ℝ × V d) (t : ℝ) (v : ℝ × V d) :
    ℝ × V d :=
  (u.1 + t * v.1, fun i => u.2 i + t * v.2 i)

/-! ### Basic facts about `sqnorm`, `dotp`, `enorm` -/

lemma sqnorm_nonneg {d : ℕ} (x : V d) : 0 ≤ sqnorm x :=
  Finset.sum_nonneg fun _ _ => sq_nonneg _

lemma dotp_self {d : ℕ} (a : V d) : dotp a a = sqnorm a :=
  Finset.sum_congr rfl fun i _ => by ring

lemma sqnorm_neg {d : ℕ} (a : V d) : sqnorm (fun i => -a i) = sqnorm a :=
  Finset.sum_congr rfl fun i _ => by ring

lemma dotp_neg_left {d : ℕ} (a b : V d) :
    dotp (fun i => -a i) b = -dotp a b := by
  simp only [dotp, ← Finset.sum_neg_distrib]
  exact Finset.sum_congr rfl fun i _ => by ring

lemma sqnorm_zero {d : ℕ} : sqnorm (fun _ : Fin d => (0 : ℝ)) = 0 := by
  simp [sqnorm]

lemma sqnorm_eq_zero_iff {d : ℕ} (x : V d) : sqnorm x = 0 ↔ ∀ i, x i = 0 := by
  unfold sqnorm
  rw [Finset.sum_eq_zero_iff_of_nonneg fun i _ => sq_nonneg (x i)]
  constructor
  · intro h i
    have h2 := h i (Finset.mem_univ i)
    exact pow_eq_zero_iff two_ne_zero |>.mp h2
  · intro h i _
    rw [h i]
    simp

lemma sqnorm_mul_const {d : ℕ} (a : V d) (t : ℝ) :
    sqnorm (fun i => a i * t) = sqnorm a * t ^ 2 := by
  simp only [sqnorm]
  rw [Finset.sum_mul]
  exact Finset.sum_congr rfl fun i _ => by ring

lemma sqnorm_sub_expand {d : ℕ} (a b : V d) :
    sqnorm (fun i => a i - b i) = sqnorm a - 2 * dotp a b + sqnorm b := by
  simp only [sqnorm, dotp]
  have h : ∀ i : Fin d, (a i - b i) ^ 2 =
      a i ^ 2 + (((-2) * (a i * b i)) + b i ^ 2) := fun i => by ring
  rw [Finset.sum_congr rfl fun i _ => h i, Finset.sum_add_distrib,
    Finset.sum_add_distrib, ← Finset.mul_sum]
  ring

lemma dotp_sq_le {d : ℕ} (a b : V d) : dotp a b ^ 2 ≤ sqnorm a * sqnorm b := by
  simpa [dotp, sqnorm] using Finset.sum_mul_sq_le_sq_mul_sq Finset.univ a b

lemma sqnorm_lin {d : ℕ} (al be ga : ℝ) (a b : V d) :
    sqnorm (fun i => (al * a i + be * b i) * ga) =
      (al ^ 2 * sqnorm a + 2 * (al * be) * dotp a b + be ^ 2 * sqnorm b) *
        ga ^ 2 := by
  simp only [sqnorm, dotp]
  have h : ∀ i : Fin d, ((al * a i + be * b i) * ga) ^ 2 =
      (al ^ 2 * ga ^ 2) * a i ^ 2 +
        ((2 * (al * be) * ga ^ 2) * (a i * b i) +
          (be ^ 2 * ga ^ 2) * b i ^ 2) := fun i => by ring
  rw [Finset.sum_congr rfl fun i _ => h i, Finset.sum_add_distrib,
    Finset.sum_add_distrib, ← Finset.mul_sum, ← Finset.mul_sum,
    ← Finset.mul_sum]
  ring

lemma dotp_lin_right {d : ℕ} (c : V d) (al be ga : ℝ) (a b : V d) :
    dotp c (fun i => (al * a i + be * b i) * ga) =
      (al * dotp c a + be * dotp c b) * ga := by
  simp only [dotp]
  have h : ∀ i : Fin d, c i * ((al * a i + be * b i) * ga) =
      (al * ga) * (c i * a i) + (be * ga) * (c i * b i) := fun i => by ring
  rw [Finset.sum_congr rfl fun i _ => h i, Finset.sum_add_distrib,
    ← Finset.mul_sum, ← Finset.mul_sum]
  ring

lemma enorm_nonneg {d : ℕ} (x : V d) : 0 ≤ enorm x := Real.sqrt_nonneg _

lemma enorm_sq {d : ℕ} (x : V d) : enorm x ^ 2 = sqnorm x :=
  Real.sq_sqrt (sqnorm_nonneg x)

lemma enorm_zero {d : ℕ} : enorm (fun _ : Fin d => (0 : ℝ)) = 0 := by
  rw [enorm, sqnorm_zero, Real.sqrt_zero]

lemma denom_pos {d : ℕ} (a b : V d) (ha : sqnorm a < 1) (hb : sqnorm b < 1) :
    0 < 1 + 2 * dotp a b + sqnorm a * sqnorm b := by
  have hcs := dotp_sq_le a b
  have ha0 := sqnorm_nonneg a
  have hb0 := sqnorm_nonneg b
  have hxy : sqnorm a * sqnorm b < 1 := by
    nlinarith [mul_nonneg ha0 (show (0 : ℝ) ≤ 1 - sqnorm b by linarith)]
  by_contra hcon
  push_neg at hcon
  have hstep : (1 + sqnorm a * sqnorm b) * (1 + sqnorm a * sqnorm b) ≤
      (-(2 * dotp a b)) * (-(2 * dotp a b)) :=
    mul_self_le_mul_self (by positivity) (by linarith)
  nlinarith [hstep, hcs, hxy]

/-! ### Facts about `tanh` and `arctanh` -/

lemma tanh_exp_form (t : ℝ) :
    Real.tanh t = (Real.exp (2 * t) - 1) / (Real.exp (2 * t) + 1) := by
  rw [Real.tanh_eq_sinh_div_cosh, Real.sinh_eq, Real.cosh_eq]
  have h1 : Real.exp t ≠ 0 := (Real.exp_pos t).ne'
  have h2 : Real.exp (2 * t) = Real.exp t * Real.exp t := by
    rw [two_mul, Real.exp_add]
  have h3 : Real.exp (2 * t) + 1 ≠ 0 := by positivity
  rw [Real.exp_neg, h2]
  rw [div_eq_div_iff (by positivity) (by rw [← h2]; exact h3)]
  field_simp

lemma tanh_lt_of_exp {t c : ℝ} (h : (1 - c) * Real.exp (2 * t) < 1 + c) :
    Real.tanh t < c := by
  rw [tanh_exp_form]
  have hE : (0 : ℝ) < Real.exp (2 * t) + 1 := by positivity
  rw [div_lt_iff hE]
  nlinarith

lemma lt_tanh_of_exp {t c : ℝ} (h : 1 + c < (1 - c) * Real.exp (2 * t)) :
    c < Real.tanh t := by
  rw [tanh_exp_form]
  have hE : (0 : ℝ) < Real.exp (2 * t) + 1 := by positivity
  rw [lt_div_iff hE]
  nlinarith

lemma tanh_nonneg_of {t : ℝ} (h : 0 ≤ t) : 0 ≤ Real.tanh t := by
  rw [tanh_exp_form]
  have h1 := Real.add_one_le_exp (2 * t)
  exact div_nonneg (by linarith) (by positivity)

lemma tanh_lt_one' (t : ℝ) : Real.tanh t < 1 :=
  tanh_lt_of_exp (by have := Real.exp_pos (2 * t); nlinarith)

lemma arctanh_tanh (t : ℝ) : arctanh (Real.tanh t) = t := by
  have hE : (0 : ℝ) < Real.exp (2 * t) := Real.exp_pos _
  have h1 : Real.exp (2 * t) + 1 ≠ 0 := by positivity
  rw [arctanh, tanh_exp_form]
  have hnum : 1 + (Real.exp (2 * t) - 1) / (Real.exp (2 * t) + 1) =
      2 * Real.exp (2 * t) / (Real.exp (2 * t) + 1) := by
    field_simp
    all_goals ring
  have hden : 1 - (Real.exp (2 * t) - 1) / (Real.exp (2 * t) + 1) =
      2 / (Real.exp (2 * t) + 1) := by
    field_simp
    all_goals norm_num
  have hkey : 2 * Real.exp (2 * t) / (Real.exp (2 * t) + 1) /
      (2 / (Real.exp (2 * t) + 1)) = Real.exp (2 * t) := by
    field_simp
  rw [hnum, hden, hkey, Real.log_exp]
  ring

/-! ### Facts about `belongs` and `isclose` -/

lemma belongs_zero {d : ℕ} : belongs TOLERANCE (fun _ : Fin d => (0 : ℝ)) := by
  unfold belongs TOLERANCE
  rw [sqnorm_zero]
  norm_num

lemma belongs_neg {d : ℕ} (a : V d) :
    belongs TOLERANCE (fun i => -a i) ↔ belongs TOLERANCE a := by
  unfold belongs
  rw [sqnorm_neg]

lemma belongs_lt_one {d : ℕ} {p : V d} (h : belongs TOLERANCE p) :
    sqnorm p < 1 := by
  unfold belongs TOLERANCE at h
  norm_num at h
  linarith

lemma isclose_zero_zero : isclose (0 : ℝ) 0 := by
  unfold isclose
  norm_num

lemma not_belongs_of_one_le {d : ℕ} {p : V d} (h : 1 ≤ sqnorm p) :
    ¬ belongs TOLERANCE p := by
  intro hbel
  unfold belongs TOLERANCE at hbel
  norm_num at hbel
  linarith

/-! ### C1: `mobius_add` computes the spec's Möbius addition formula -/

/-- C1.  For points `a`, `b` that both satisfy the Ball domain predicate with
the default tolerance, `mobius_add a b` succeeds and returns exactly the
Möbius addition formula of the spec,
`[(1 + 2⟨a,b⟩ + ‖b‖²) a + (1 − ‖a‖²) b] / [1 + 2⟨a,b⟩ + ‖a‖²‖b‖²]`. -/
theorem mobius_add_matches_spec_formula {d : ℕ} (a b : V d)
    (ha : belongs TOLERANCE a) (hb : belongs TOLERANCE b) :
    mobius_add a b = Except.ok (mobius_add_spec_formula a b) := by
  rw [mobius_add, if_pos ⟨ha, hb⟩]
  congr 1
  funext i
  simp only [mobiusAddF, mobius_add_spec_formula]
  rw [mul_one_div]

/-- Witness for C1 at the origin of the one-dimensional ball. -/
theorem mobius_add_matches_spec_formula_witness :
    mobius_add (fun _ : Fin 1 => (0 : ℝ)) (fun _ : Fin 1 => (0 : ℝ)) =
      Except.ok (mobius_add_spec_formula (fun _ => 0) (fun _ => 0)) :=
  mobius_add_matches_spec_formula _ _ belongs_zero belongs_zero

/-! ### C2: domain error of `mobius_add` and `retraction` -/

/-- C2.  `mobius_add` returns the domain error whenever either input has
squared norm at least `1`, and `retraction` returns the same domain error
whenever its base point has squared norm at least `1`; the error value is
produced instead of any result. -/
theorem mobius_add_retraction_domain_error {d : ℕ} :
    (∀ a b : V d, 1 ≤ sqnorm a ∨ 1 ≤ sqnorm b →
        mobius_add a b = Except.error domain_error_msg) ∧
    (∀ tangent_vec base_point : V d, 1 ≤ sqnorm base_point →
        retraction tangent_vec base_point = Except.error domain_error_msg) := by
  constructor
  · intro a b hab
    rw [mobius_add, if_neg]
    rcases hab with h | h
    · exact fun hc => not_belongs_of_one_le h hc.1
    · exact fun hc => not_belongs_of_one_le h hc.2
  · intro tv bp h
    rw [retraction, if_neg (not_belongs_of_one_le h)]

/-- Witness for C2 at the point `(2)` of squared norm `4 ≥ 1`. -/
theorem mobius_add_retraction_domain_error_witness :
    mobius_add (fun _ : Fin 1 => (2 : ℝ)) (fun _ : Fin 1 => (0 : ℝ)) =
        Except.error domain_error_msg ∧
      retraction (fun _ : Fin 1 => (0 : ℝ)) (fun _ : Fin 1 => (2 : ℝ)) =
        Except.error domain_error_msg := by
  have h4 : (1 : ℝ) ≤ sqnorm (fun _ : Fin 1 => (2 : ℝ)) := by
    unfold sqnorm
    rw [Fin.sum_univ_one]
    norm_num
  exact ⟨mobius_add_retraction_domain_error.1 _ _ (Or.inl h4),
    mobius_add_retraction_domain_error.2 _ _ h4⟩

/-! ### C3: `exp` of the zero tangent vector -/

/-- C3.  For a base point in the ball, `exp` of the zero tangent vector
returns the base point exactly: the zero-norm entry is detected, `EPSILON`
is substituted into the formula, and the result is overridden to
`base_point` afterwards. -/
theorem exp_zero_tangent_eq_base {d : ℕ} (bp : V d)
    (h : belongs TOLERANCE bp) :
    exp (fun _ => 0) bp = Except.ok bp := by
  have hz : isclose (sqnorm (fun _ : Fin d => (0 : ℝ))) 0 := by
    rw [sqnorm_zero]
    exact isclose_zero_zero
  unfold exp
  simp only [hz, ite_true]
  have hop : (fun i : Fin d =>
      0 * (1 / EPSILON) * Real.tanh (1 / (1 - enorm bp ^ 2) * EPSILON)) =
      (fun _ : Fin d => (0 : ℝ)) := by
    funext i
    ring
  rw [hop, mobius_add, if_pos ⟨h, belongs_zero⟩]

/-- Witness for C3 at the origin of the one-dimensional ball. -/
theorem exp_zero_tangent_eq_base_witness :
    exp (fun _ => 0) (fun _ : Fin 1 => (0 : ℝ)) =
      Except.ok (fun _ : Fin 1 => (0 : ℝ)) :=
  exp_zero_tangent_eq_base _ belongs_zero

/-! ### C4: `log` of coincident points -/

lemma log_self_ok {d : ℕ} (bp : V d) (h : belongs TOLERANCE bp) :
    log bp bp = Except.ok (fun _ => 0) := by
  have hneg : belongs TOLERANCE (fun i => -bp i) := (belongs_neg bp).mpr h
  have hu : mobiusAddF (fun i => -bp i) bp = (fun _ : Fin d => (0 : ℝ)) := by
    funext i
    simp only [mobiusAddF, dotp_neg_left, dotp_self, sqnorm_neg]
    ring
  unfold log
  rw [mobius_add, if_pos ⟨hneg, h⟩, hu]
  simp only [enorm_zero, isclose_zero_zero, ite_true]

/-- C4.  For a base point in the ball, `log base_point base_point` returns
the zero vector exactly: the Möbius difference is the zero vector, whose
norm is numerically zero, so the override produces the zero vector. -/
theorem log_base_base_eq_zero {d : ℕ} (bp : V d)
    (h : belongs TOLERANCE bp) :
    log bp bp = Except.ok (fun _ => 0) :=
  log_self_ok bp h

/-- Witness for C4 at the origin of the one-dimensional ball. -/
theorem log_base_base_eq_zero_witness :
    log (fun _ : Fin 1 => (0 : ℝ)) (fun _ : Fin 1 => (0 : ℝ)) =
      Except.ok (fun _ => 0) :=
  log_base_base_eq_zero _ belongs_zero

/-! ### C7: the retraction formula -/

/-- C7.  For a base point in the ball, `retraction` returns exactly
`base_point − [(1 − ‖base_point‖²)² / 4] · tangent_vec`; moreover the result
is not projected back onto the ball: at base point `0` with tangent `(8)`
the returned point `(−2)` lies outside the ball. -/
theorem retraction_formula :
    (∀ (d : ℕ) (tangent_vec base_point : V d),
        belongs TOLERANCE base_point →
        retraction tangent_vec base_point = Except.ok (fun i =>
          base_point i - (1 - sqnorm base_point) ^ 2 / 4 * tangent_vec i)) ∧
      (retraction (fun _ : Fin 1 => (8 : ℝ)) (fun _ : Fin 1 => (0 : ℝ)) =
          Except.ok (fun _ : Fin 1 => (-2 : ℝ)) ∧
        ¬ belongs TOLERANCE (fun _ : Fin 1 => (-2 : ℝ))) := by
  refine ⟨fun d tv bp h => by rw [retraction, if_pos h], ?_, ?_⟩
  · rw [retraction, if_pos belongs_zero]
    congr 1
    funext i
    rw [sqnorm_zero]
    norm_num
  · apply not_belongs_of_one_le
    unfold sqnorm
    rw [Fin.sum_univ_one]
    norm_num

/-- Witness for C7 at the origin with tangent `(1)`. -/
theorem retraction_formula_witness :
    retraction (fun _ : Fin 1 => (1 : ℝ)) (fun _ : Fin 1 => (0 : ℝ)) =
      Except.ok (fun i =>
        (fun _ : Fin 1 => (0 : ℝ)) i -
          (1 - sqnorm (fun _ : Fin 1 => (0 : ℝ))) ^ 2 / 4 *
            (fun _ : Fin 1 => (1 : ℝ)) i) :=
  retraction_formula.1 1 _ _ belongs_zero

/-! ### C8: the inner-product matrix -/

/-- C8.  For every base point (no domain validation), the inner-product
matrix is `λ(base_point)² · I_d` with `λ(x) = 2 / (1 − ‖x‖²)`; with the base
point omitted it defaults to the origin and the result is `4 · I_d`. -/
theorem inner_product_matrix_conformal (d : ℕ) :
    (∀ bp : V d, inner_product_matrix d (some bp) =
        fun i j => conformal_factor bp ^ 2 * (if i = j then 1 else 0)) ∧
      inner_product_matrix d none =
        (fun i j => 4 * (if i = j then 1 else 0)) := by
  constructor
  · intro bp
    funext i j
    simp only [inner_product_matrix, Option.getD_some, conformal_factor,
      dotp_self]
  · funext i j
    simp only [inner_product_matrix, Option.getD_none, dotp_self, sqnorm_zero]
    norm_num

/-! ### C9: `exp` and `log` propagate the domain error -/

/-- C9.  `exp` returns the domain error whenever its base point fails the
Ball predicate (through its internal `mobius_add` call), and `log` returns
the same domain error whenever its point or its base point fails the
predicate. -/
theorem exp_log_propagate_domain_error {d : ℕ} :
    (∀ tangent_vec base_point : V d, ¬ belongs TOLERANCE base_point →
        exp tangent_vec base_point = Except.error domain_error_msg) ∧
    (∀ point base_point : V d,
        ¬ belongs TOLERANCE point ∨ ¬ belongs TOLERANCE base_point →
        log point base_point = Except.error domain_error_msg) := by
  constructor
  · intro tv bp hbp
    unfold exp
    simp only []
    rw [mobius_add, if_neg (fun hc => hbp hc.1)]
  · intro p bp hpb
    unfold log
    rw [mobius_add, if_neg]
    intro hc
    rcases hpb with h | h
    · exact h hc.2
    · exact h ((belongs_neg bp).mp hc.1)

/-- Witness for C9 at the out-of-ball point `(2)`. -/
theorem exp_log_propagate_domain_error_witness :
    exp (fun _ : Fin 1 => (0 : ℝ)) (fun _ : Fin 1 => (2 : ℝ)) =
        Except.error domain_error_msg ∧
      log (fun _ : Fin 1 => (2 : ℝ)) (fun _ : Fin 1 => (0 : ℝ)) =
        Except.error domain_error_msg := by
  have h2 : ¬ belongs TOLERANCE (fun _ : Fin 1 => (2 : ℝ)) := by
    apply not_belongs_of_one_le
    unfold sqnorm
    rw [Fin.sum_univ_one]
    norm_num
  exact ⟨exp_log_propagate_domain_error.1 _ _ h2,
    exp_log_propagate_domain_error.2 _ _ (Or.inl h2)⟩

/-! ### Evaluating `exp` away from numerically-zero tangent vectors -/

lemma exp_not_zero_tan_ok {d : ℕ} (v bp : V d) (hz : ¬ isclose (sqnorm v) 0)
    (hbp : belongs TOLERANCE bp)
    (hop : belongs TOLERANCE (exp_operand v bp)) :
    exp v bp = Except.ok (mobiusAddF bp (exp_operand v bp)) := by
  unfold exp
  simp only [hz, ite_false]
  have hid : (fun i => v i * (1 / enorm v) *
      Real.tanh (1 / (1 - enorm bp ^ 2) * enorm v)) = exp_operand v bp := rfl
  rw [hid, mobius_add, if_pos ⟨hbp, hop⟩]

lemma exp_not_zero_tan_err {d : ℕ} (v bp : V d) (hz : ¬ isclose (sqnorm v) 0)
    (hop : ¬ (belongs TOLERANCE bp ∧ belongs TOLERANCE (exp_operand v bp))) :
    exp v bp = Except.error domain_error_msg := by
  unfold exp
  simp only [hz, ite_false]
  have hid : (fun i => v i * (1 / enorm v) *
      Real.tanh (1 / (1 - enorm bp ^ 2) * enorm v)) = exp_operand v bp := rfl
  rw [hid, mobius_add, if_neg hop]

/-! ### C10: `exp` is not total on valid inputs -/

lemma sqnorm_one_dim (x : ℝ) : sqnorm (fun _ : Fin 1 => x) = x ^ 2 := by
  unfold sqnorm
  rw [Fin.sum_univ_one]

lemma enorm_eight : enorm (fun _ : Fin 1 => (8 : ℝ)) = 8 := by
  rw [enorm, sqnorm_one_dim, show ((8 : ℝ) ^ 2) = 8 ^ 2 from rfl,
    Real.sqrt_sq (by norm_num : (0 : ℝ) ≤ 8)]

lemma exp_sixteen_large : (3999999 : ℝ) < Real.exp 16 := by
  have h1 : Real.exp 16 = Real.exp 1 ^ 16 := by
    rw [← Real.exp_nat_mul]
    norm_num
  have h2 : (2.7 : ℝ) ^ 16 < Real.exp 1 ^ 16 := by
    apply pow_lt_pow_left _ (by norm_num) (by norm_num)
    linarith [Real.exp_one_gt_d9]
  have h3 : (3999999 : ℝ) < (2.7 : ℝ) ^ 16 := by norm_num
  linarith

lemma tanh_eight_large : (0.9999995 : ℝ) < Real.tanh 8 := by
  apply lt_tanh_of_exp
  have h := exp_sixteen_large
  have h16 : Real.exp (2 * 8) = Real.exp 16 := by norm_num
  rw [h16]
  nlinarith

/-- C10.  `exp` is not total on valid inputs: at the origin (which satisfies
the Ball predicate) with tangent vector `(8)`, the intermediate operand
`direction * tanh(λ‖v‖)` has squared norm `tanh(8)² ≥ 1 − TOLERANCE`, so the
internal `mobius_add` call raises the domain error. -/
theorem exp_domain_error_large_tangent :
    belongs TOLERANCE (fun _ : Fin 1 => (0 : ℝ)) ∧
      ¬ belongs TOLERANCE
          (exp_operand (fun _ : Fin 1 => (8 : ℝ)) (fun _ : Fin 1 => (0 : ℝ))) ∧
      exp (fun _ : Fin 1 => (8 : ℝ)) (fun _ : Fin 1 => (0 : ℝ)) =
        Except.error domain_error_msg := by
  have hop : exp_operand (fun _ : Fin 1 => (8 : ℝ)) (fun _ : Fin 1 => (0 : ℝ)) =
      (fun _ : Fin 1 => Real.tanh 8) := by
    funext i
    unfold exp_operand
    rw [enorm_eight, enorm_zero]
    norm_num
  have hnb : ¬ belongs TOLERANCE
      (exp_operand (fun _ : Fin 1 => (8 : ℝ)) (fun _ : Fin 1 => (0 : ℝ))) := by
    rw [hop]
    intro hbel
    unfold belongs TOLERANCE at hbel
    rw [sqnorm_one_dim] at hbel
    have ht := tanh_eight_large
    nlinarith
  refine ⟨belongs_zero, hnb, ?_⟩
  apply exp_not_zero_tan_err
  · rw [sqnorm_one_dim]
    unfold isclose
    norm_num
  · exact fun hc => hnb hc.2

/-! ### Further inner-product expansions -/

lemma dotp_comm {d : ℕ} (a b : V d) : dotp a b = dotp b a :=
  Finset.sum_congr rfl fun i _ => mul_comm _ _

lemma sqnorm_sub_comm {d : ℕ} (a b : V d) :
    sqnorm (fun i => a i - b i) = sqnorm (fun i => b i - a i) :=
  Finset.sum_congr rfl fun i _ => by ring

lemma dotp_smul_smul {d : ℕ} (c c' : ℝ) (a b : V d) :
    dotp (fun i => c * a i) (fun i => c' * b i) = c * c' * dotp a b := by
  simp only [dotp]
  rw [Finset.sum_congr rfl fun i (_ : i ∈ Finset.univ) =>
    (by ring : (c * a i) * (c' * b i) = c * c' * (a i * b i))]
  rw [← Finset.mul_sum]

lemma dotp_sub_sub {d : ℕ} (a : V d) (t : ℝ) (b : V d) (c : V d) (s : ℝ)
    (e : V d) :
    dotp (fun i => a i - t * b i) (fun i => c i - s * e i) =
      dotp a c - s * dotp a e - t * dotp b c + t * s * dotp b e := by
  simp only [dotp]
  have h : ∀ i : Fin d, (a i - t * b i) * (c i - s * e i) =
      a i * c i + ((-s) * (a i * e i) +
        ((-t) * (b i * c i) + t * s * (b i * e i))) := fun i => by ring
  rw [Finset.sum_congr rfl fun i _ => h i, Finset.sum_add_distrib,
    Finset.sum_add_distrib, Finset.sum_add_distrib, ← Finset.mul_sum,
    ← Finset.mul_sum, ← Finset.mul_sum]
  ring

lemma dotp_addmul_right {d : ℕ} (c u v : V d) (t : ℝ) :
    dotp c (fun i => u i + t * v i) = dotp c u + t * dotp c v := by
  simp only [dotp]
  have h : ∀ i : Fin d, c i * (u i + t * v i) =
      c i * u i + t * (c i * v i) := fun i => by ring
  rw [Finset.sum_congr rfl fun i _ => h i, Finset.sum_add_distrib,
    ← Finset.mul_sum]

lemma dotp_submul_right {d : ℕ} (c u v : V d) (t : ℝ) :
    dotp c (fun i => u i - t * v i) = dotp c u - t * dotp c v := by
  simp only [dotp]
  have h : ∀ i : Fin d, c i * (u i - t * v i) =
      c i * u i + (-t) * (c i * v i) := fun i => by ring
  rw [Finset.sum_congr rfl fun i _ => h i, Finset.sum_add_distrib,
    ← Finset.mul_sum]
  ring

lemma dotp_addmul_self {d : ℕ} (u v : V d) (t : ℝ) :
    dotp (fun i => u i + t * v i) (fun i => u i + t * v i) =
      dotp u u + 2 * t * dotp u v + t ^ 2 * dotp v v := by
  simp only [dotp]
  have h : ∀ i : Fin d, (u i + t * v i) * (u i + t * v i) =
      u i * u i + (2 * t * (u i * v i) + t ^ 2 * (v i * v i)) := fun i => by
    ring
  rw [Finset.sum_congr rfl fun i _ => h i, Finset.sum_add_distrib,
    Finset.sum_add_distrib, ← Finset.mul_sum, ← Finset.mul_sum]
  ring

/-! ### The Minkowski form and the hyperboloid lift -/

lemma mdot_comm {d : ℕ} (u v : ℝ × V d) : mdot u v = mdot v u := by
  simp only [mdot]
  rw [dotp_comm]
  ring

lemma mdot_psub_psub {d : ℕ} (u e v f : ℝ × V d) (t s : ℝ) :
    mdot (psub u t e) (psub v s f) =
      mdot u v - s * mdot u f - t * mdot e v + t * s * mdot e f := by
  simp only [mdot, psub]
  rw [dotp_sub_sub]
  ring

lemma mdot_psub_right {d : ℕ} (e u v : ℝ × V d) (t : ℝ) :
    mdot e (psub u t v) = mdot e u - t * mdot e v := by
  simp only [mdot, psub]
  rw [dotp_submul_right]
  ring

lemma mdot_padd_right {d : ℕ} (e u v : ℝ × V d) (t : ℝ) :
    mdot e (padd u t v) = mdot e u + t * mdot e v := by
  simp only [mdot, padd]
  rw [dotp_addmul_right]
  ring

lemma mdot_padd_self {d : ℕ} (u v : ℝ × V d) (t : ℝ) :
    mdot (padd u t v) (padd u t v) =
      mdot u u + 2 * t * mdot u v + t ^ 2 * mdot v v := by
  simp only [mdot, padd]
  rw [dotp_addmul_self]
  ring

lemma mdot_perp_nonneg {d : ℕ} (e w : ℝ × V d) (he : mdot e e = -1)
    (hw : mdot e w = 0) : 0 ≤ mdot w w := by
  have hcs := dotp_sq_le e.2 w.2
  have hw2 := sqnorm_nonneg w.2
  have he2 := sqnorm_nonneg e.2
  simp only [mdot, dotp_self] at he hw ⊢
  have hew : e.1 * w.1 = dotp e.2 w.2 := by linarith
  have he1 : e.1 * e.1 = 1 + sqnorm e.2 := by linarith
  have hsq : (e.1 * w.1) ^ 2 = dotp e.2 w.2 ^ 2 := by rw [hew]
  nlinarith [hcs, hsq, he1, sq_nonneg w.1, sq_nonneg e.1,
    mul_pow e.1 w.1 2]

lemma mdot_perp_cs {d : ℕ} (e u v : ℝ × V d) (he : mdot e e = -1)
    (hu : mdot e u = 0) (hv : mdot e v = 0) :
    mdot u v ^ 2 ≤ mdot u u * mdot v v := by
  have hq : ∀ x : ℝ, 0 ≤ mdot v v * (x * x) + 2 * mdot u v * x + mdot u u := by
    intro x
    have hp : mdot e (padd u x v) = 0 := by
      rw [mdot_padd_right, hu, hv]
      ring
    have hnn := mdot_perp_nonneg e (padd u x v) he hp
    rw [mdot_padd_self] at hnn
    nlinarith [hnn]
  have hd := discrim_le_zero hq
  unfold discrim at hd
  nlinarith [hd]

lemma mdot_lift_self {d : ℕ} (p : V d) (hp : sqnorm p < 1) :
    mdot (lift p) (lift p) = -1 := by
  have h0 : (1 : ℝ) - sqnorm p ≠ 0 := by linarith
  simp only [mdot, lift]
  rw [dotp_smul_smul, dotp_self]
  field_simp
  ring

lemma mdot_lift_lift {d : ℕ} (a b : V d) (ha : sqnorm a < 1)
    (hb : sqnorm b < 1) : mdot (lift a) (lift b) = -(tfun a b) := by
  have h0a : (1 : ℝ) - sqnorm a ≠ 0 := by linarith
  have h0b : (1 : ℝ) - sqnorm b ≠ 0 := by linarith
  simp only [mdot, lift, tfun]
  rw [dotp_smul_smul, sqnorm_sub_expand]
  field_simp
  ring

/-! ### Properties of `tfun` and `gacosh` -/

lemma one_le_tfun {d : ℕ} (a b : V d) (ha : sqnorm a < 1)
    (hb : sqnorm b < 1) : 1 ≤ tfun a b := by
  unfold tfun
  have h1 : 0 < (1 - sqnorm a) * (1 - sqnorm b) := by
    apply mul_pos <;> linarith
  have h2 : 0 ≤ sqnorm (fun i => a i - b i) := sqnorm_nonneg _
  have h3 := div_nonneg (by linarith : (0 : ℝ) ≤
    2 * sqnorm (fun i => a i - b i)) h1.le
  linarith

lemma one_le_gacosh {t : ℝ} (h : 1 ≤ t) : 1 ≤ gacosh t := by
  unfold gacosh
  have := Real.sqrt_nonneg (t ^ 2 - 1)
  linarith

lemma gacosh_mono {t1 t2 : ℝ} (h1 : 1 ≤ t1) (h : t1 ≤ t2) :
    gacosh t1 ≤ gacosh t2 := by
  unfold gacosh
  have hsq : t1 ^ 2 - 1 ≤ t2 ^ 2 - 1 := by nlinarith
  have := Real.sqrt_le_sqrt hsq
  linarith

lemma gacosh_eq_one_iff {t : ℝ} (h : 1 ≤ t) : gacosh t = 1 ↔ t = 1 := by
  unfold gacosh
  constructor
  · intro he
    have hs := Real.sqrt_nonneg (t ^ 2 - 1)
    linarith
  · intro he
    rw [he]
    rw [show (1 : ℝ) ^ 2 - 1 = 0 by norm_num, Real.sqrt_zero]
    norm_num

lemma gacosh_mul {t1 t2 : ℝ} (h1 : 1 ≤ t1) (h2 : 1 ≤ t2) :
    gacosh (t1 * t2 + Real.sqrt ((t1 ^ 2 - 1) * (t2 ^ 2 - 1))) =
      gacosh t1 * gacosh t2 := by
  unfold gacosh
  have ha : (0 : ℝ) ≤ t1 ^ 2 - 1 := by nlinarith
  have hb : (0 : ℝ) ≤ t2 ^ 2 - 1 := by nlinarith
  set A := Real.sqrt (t1 ^ 2 - 1) with hAdef
  set B := Real.sqrt (t2 ^ 2 - 1) with hBdef
  have hA : A ^ 2 = t1 ^ 2 - 1 := Real.sq_sqrt ha
  have hB : B ^ 2 = t2 ^ 2 - 1 := Real.sq_sqrt hb
  have hA0 : 0 ≤ A := Real.sqrt_nonneg _
  have hB0 : 0 ≤ B := Real.sqrt_nonneg _
  have hAB : Real.sqrt ((t1 ^ 2 - 1) * (t2 ^ 2 - 1)) = A * B :=
    Real.sqrt_mul ha _
  have hT : (t1 * t2 + A * B) ^ 2 - 1 = (t1 * B + t2 * A) ^ 2 := by
    linear_combination (B ^ 2 - t2 ^ 2) * hA - hB
  have hT0 : 0 ≤ t1 * B + t2 * A :=
    add_nonneg (mul_nonneg (by linarith) hB0) (mul_nonneg (by linarith) hA0)
  rw [hAB, hT, Real.sqrt_sq hT0]
  ring

/-! ### The triangle core inequality via the hyperboloid -/

lemma tfun_triangle_core {d : ℕ} (a b c : V d) (ha : sqnorm a < 1)
    (hb : sqnorm b < 1) (hc : sqnorm c < 1) :
    tfun a c ≤ tfun a b * tfun b c +
      Real.sqrt ((tfun a b ^ 2 - 1) * (tfun b c ^ 2 - 1)) := by
  have e11 := mdot_lift_self a ha
  have e22 := mdot_lift_self b hb
  have e33 := mdot_lift_self c hc
  have e12 := mdot_lift_lift a b ha hb
  have e13 := mdot_lift_lift a c ha hc
  have e23 := mdot_lift_lift b c hb hc
  have e21 : mdot (lift b) (lift a) = -(tfun a b) := by
    rw [mdot_comm]
    exact e12
  have e32 : mdot (lift c) (lift b) = -(tfun b c) := by
    rw [mdot_comm]
    exact e23
  have hp : mdot (lift b) (psub (lift a) (tfun a b) (lift b)) = 0 := by
    rw [mdot_psub_right, e21, e22]
    ring
  have hq : mdot (lift b) (psub (lift c) (tfun b c) (lift b)) = 0 := by
    rw [mdot_psub_right, e23, e22]
    ring
  have hpq : mdot (psub (lift a) (tfun a b) (lift b))
      (psub (lift c) (tfun b c) (lift b)) = tfun a b * tfun b c - tfun a c := by
    rw [mdot_psub_psub, e13, e12, e23, e22]
    ring
  have hpp : mdot (psub (lift a) (tfun a b) (lift b))
      (psub (lift a) (tfun a b) (lift b)) = tfun a b ^ 2 - 1 := by
    rw [mdot_psub_psub, e11, e12, e21, e22]
    ring
  have hqq : mdot (psub (lift c) (tfun b c) (lift b))
      (psub (lift c) (tfun b c) (lift b)) = tfun b c ^ 2 - 1 := by
    rw [mdot_psub_psub, e33, e32, e23, e22]
    ring
  have hcs := mdot_perp_cs (lift b) _ _ e22 hp hq
  rw [hpq, hpp, hqq] at hcs
  have habs : tfun a c - tfun a b * tfun b c ≤
      Real.sqrt ((tfun a b ^ 2 - 1) * (tfun b c ^ 2 - 1)) := by
    have h1 : (tfun a c - tfun a b * tfun b c) ^ 2 ≤
        (tfun a b ^ 2 - 1) * (tfun b c ^ 2 - 1) := by nlinarith [hcs]
    calc tfun a c - tfun a b * tfun b c
        ≤ |tfun a c - tfun a b * tfun b c| := le_abs_self _
      _ = Real.sqrt ((tfun a c - tfun a b * tfun b c) ^ 2) :=
          (Real.sqrt_sq_eq_abs _).symm
      _ ≤ Real.sqrt ((tfun a b ^ 2 - 1) * (tfun b c ^ 2 - 1)) :=
          Real.sqrt_le_sqrt h1
  linarith

/-! ### Evaluating `dist` -/

lemma clip_of_belongs {d : ℕ} {p : V d} (h : belongs TOLERANCE p) :
    clip (sqnorm p) 0 (1 - EPSILON) = sqnorm p := by
  unfold clip
  rw [max_eq_left (sqnorm_nonneg p)]
  apply min_eq_left
  unfold belongs TOLERANCE at h
  unfold EPSILON
  linarith

lemma dist_eq_of_belongs {d : ℕ} (scale : ℝ) (a b : V d)
    (ha : belongs TOLERANCE a) (hb : belongs TOLERANCE b) :
    dist scale a b = scale * Real.log (gacosh (tfun a b)) := by
  simp only [dist]
  rw [clip_of_belongs ha, clip_of_belongs hb]
  rfl

lemma dist_self_eq_zero {d : ℕ} (scale : ℝ) (p : V d) : dist scale p p = 0 := by
  simp only [dist]
  have hd : sqnorm (fun i => p i - p i) = 0 := by
    rw [show (fun i => p i - p i) = (fun _ : Fin d => (0 : ℝ)) by
      funext i; ring]
    exact sqnorm_zero
  rw [hd]
  norm_num

lemma dist_symm_eq {d : ℕ} (scale : ℝ) (a b : V d) :
    dist scale a b = dist scale b a := by
  simp only [dist]
  rw [sqnorm_sub_comm,
    mul_comm (1 - clip (sqnorm a) 0 (1 - EPSILON))
      (1 - clip (sqnorm b) 0 (1 - EPSILON))]

lemma dist_scale_linear {d : ℕ} (scale : ℝ) (a b : V d) :
    dist scale a b = scale * dist 1 a b := by
  simp only [dist]
  ring

lemma tfun_self {d : ℕ} (a : V d) : tfun a a = 1 := by
  unfold tfun
  rw [show (fun i => a i - a i) = (fun _ : Fin d => (0 : ℝ)) by
    funext i; ring]
  rw [sqnorm_zero]
  norm_num

lemma dist_zero_iff {d : ℕ} (scale : ℝ) (hs : 0 < scale) (a b : V d)
    (ha : belongs TOLERANCE a) (hb : belongs TOLERANCE b) :
    dist scale a b = 0 ↔ a = b := by
  rw [dist_eq_of_belongs scale a b ha hb]
  have ha1 := belongs_lt_one ha
  have hb1 := belongs_lt_one hb
  have ht1 := one_le_tfun a b ha1 hb1
  have hg1 := one_le_gacosh ht1
  constructor
  · intro h0
    have hlog : Real.log (gacosh (tfun a b)) = 0 := by
      rcases mul_eq_zero.mp h0 with h | h
      · exact absurd h hs.ne'
      · exact h
    have hge : gacosh (tfun a b) = 1 := by
      rcases Real.log_eq_zero.mp hlog with h | h | h
      · linarith
      · exact h
      · linarith
    have ht : tfun a b = 1 := (gacosh_eq_one_iff ht1).mp hge
    unfold tfun at ht
    have hden : 0 < (1 - sqnorm a) * (1 - sqnorm b) :=
      mul_pos (by linarith) (by linarith)
    have hD : sqnorm (fun i => a i - b i) = 0 := by
      have h2 : 2 * sqnorm (fun i => a i - b i) /
          ((1 - sqnorm a) * (1 - sqnorm b)) = 0 := by linarith
      rw [div_eq_zero_iff] at h2
      rcases h2 with h2 | h2
      · linarith
      · linarith
    have hz := (sqnorm_eq_zero_iff _).mp hD
    funext i
    have := hz i
    linarith
  · intro h
    subst h
    rw [tfun_self]
    unfold gacosh
    rw [show (1 : ℝ) ^ 2 - 1 = 0 by norm_num, Real.sqrt_zero]
    norm_num

lemma dist_triangle_le {d : ℕ} (scale : ℝ) (hs : 0 ≤ scale) (a b c : V d)
    (ha : belongs TOLERANCE a) (hb : belongs TOLERANCE b)
    (hc : belongs TOLERANCE c) :
    dist scale a c ≤ dist scale a b + dist scale b c := by
  rw [dist_eq_of_belongs scale a c ha hc, dist_eq_of_belongs scale a b ha hb,
    dist_eq_of_belongs scale b c hb hc]
  have ha1 := belongs_lt_one ha
  have hb1 := belongs_lt_one hb
  have hc1 := belongs_lt_one hc
  have t13 := one_le_tfun a c ha1 hc1
  have t12 := one_le_tfun a b ha1 hb1
  have t23 := one_le_tfun b c hb1 hc1
  have hcore := tfun_triangle_core a b c ha1 hb1 hc1
  have hmul := gacosh_mul t12 t23
  have hmono := gacosh_mono t13 hcore
  have hg13 : (0 : ℝ) < gacosh (tfun a c) :=
    lt_of_lt_of_le one_pos (one_le_gacosh t13)
  have hg12 : (0 : ℝ) < gacosh (tfun a b) :=
    lt_of_lt_of_le one_pos (one_le_gacosh t12)
  have hg23 : (0 : ℝ) < gacosh (tfun b c) :=
    lt_of_lt_of_le one_pos (one_le_gacosh t23)
  have hgT : (0 : ℝ) < gacosh (tfun a b * tfun b c +
      Real.sqrt ((tfun a b ^ 2 - 1) * (tfun b c ^ 2 - 1))) := lt_of_lt_of_le hg13 hmono
  have hlog : Real.log (gacosh (tfun a c)) ≤
      Real.log (gacosh (tfun a b)) + Real.log (gacosh (tfun b c)) := by
    calc Real.log (gacosh (tfun a c))
        ≤ Real.log (gacosh (tfun a b * tfun b c +
            Real.sqrt ((tfun a b ^ 2 - 1) * (tfun b c ^ 2 - 1)))) :=
          (Real.log_le_log_iff hg13 hgT).mpr hmono
      _ = Real.log (gacosh (tfun a b) * gacosh (tfun b c)) := by rw [hmul]
      _ = _ := Real.log_mul hg12.ne' hg23.ne'
  calc scale * Real.log (gacosh (tfun a c))
      ≤ scale * (Real.log (gacosh (tfun a b)) +
          Real.log (gacosh (tfun b c))) := mul_le_mul_of_nonneg_left hlog hs
    _ = scale * Real.log (gacosh (tfun a b)) +
        scale * Real.log (gacosh (tfun b c)) := by ring

/-! ### C5: metric properties of `dist` -/

/-- C5.  For a positive scale, `dist` has the geodesic-distance properties:
`dist p p = 0` for every point; `dist` is symmetric; `dist` scales linearly
with the scale parameter; for points in the ball `dist a b = 0` exactly when
`a = b`; and the triangle inequality holds for points in the ball. -/
theorem dist_metric_properties {d : ℕ} (scale : ℝ) (hs : 0 < scale) :
    (∀ p : V d, dist scale p p = 0) ∧
      (∀ a b : V d, dist scale a b = dist scale b a) ∧
      (∀ a b : V d, dist scale a b = scale * dist 1 a b) ∧
      (∀ a b : V d, belongs TOLERANCE a → belongs TOLERANCE b →
        (dist scale a b = 0 ↔ a = b)) ∧
      (∀ a b c : V d, belongs TOLERANCE a → belongs TOLERANCE b →
        belongs TOLERANCE c →
        dist scale a c ≤ dist scale a b + dist scale b c) :=
  ⟨fun p => dist_self_eq_zero scale p,
    fun a b => dist_symm_eq scale a b,
    fun a b => dist_scale_linear scale a b,
    fun a b ha hb => dist_zero_iff scale hs a b ha hb,
    fun a b c ha hb hc => dist_triangle_le scale hs.le a b c ha hb hc⟩

/-- Witness for C5 in dimension one with scale `1`, at the in-ball points
`0`, `1/2`, `-1/2`. -/
theorem dist_metric_properties_witness :
    dist (1 : ℝ) (fun _ : Fin 1 => (0 : ℝ)) (fun _ : Fin 1 => (0 : ℝ)) = 0 ∧
      (dist (1 : ℝ) (fun _ : Fin 1 => (1 / 2 : ℝ)) (fun _ : Fin 1 => (0 : ℝ))
          = 0 ↔ (fun _ : Fin 1 => (1 / 2 : ℝ)) = (fun _ : Fin 1 => (0 : ℝ))) ∧
      dist (1 : ℝ) (fun _ : Fin 1 => (1 / 2 : ℝ))
          (fun _ : Fin 1 => (-1 / 2 : ℝ)) ≤
        dist (1 : ℝ) (fun _ : Fin 1 => (1 / 2 : ℝ)) (fun _ : Fin 1 => (0 : ℝ))
          + dist (1 : ℝ) (fun _ : Fin 1 => (0 : ℝ))
            (fun _ : Fin 1 => (-1 / 2 : ℝ)) := by
  have hhalf : belongs TOLERANCE (fun _ : Fin 1 => (1 / 2 : ℝ)) := by
    unfold belongs TOLERANCE
    rw [sqnorm_one_dim]
    norm_num
  have hmhalf : belongs TOLERANCE (fun _ : Fin 1 => (-1 / 2 : ℝ)) := by
    unfold belongs TOLERANCE
    rw [sqnorm_one_dim]
    norm_num
  have h := dist_metric_properties (d := 1) 1 one_pos
  exact ⟨h.1 _, h.2.2.2.1 _ _ hhalf belongs_zero,
    h.2.2.2.2 _ _ _ hhalf belongs_zero hmhalf⟩

/-! ### Left cancellation of the Möbius addition -/

lemma mobius_left_cancel {d : ℕ} (a w : V d) (hx : sqnorm a < 1)
    (hy : sqnorm w < 1) :
    mobiusAddF (fun i => -a i) (mobiusAddF a w) = w := by
  have hx0 := sqnorm_nonneg a
  have hy0 := sqnorm_nonneg w
  have hD : 0 < 1 + 2 * dotp a w + sqnorm a * sqnorm w := denom_pos a w hx hy
  have hQ : (0 : ℝ) < 1 - sqnorm a := by linarith
  have hY : sqnorm (mobiusAddF a w) =
      ((1 + 2 * dotp a w + sqnorm w) ^ 2 * sqnorm a +
        2 * ((1 + 2 * dotp a w + sqnorm w) * (1 - sqnorm a)) * dotp a w +
        (1 - sqnorm a) ^ 2 * sqnorm w) *
        (1 / (1 + 2 * dotp a w + sqnorm a * sqnorm w)) ^ 2 :=
    sqnorm_lin _ _ _ a w
  have hE : dotp (fun i => -a i) (mobiusAddF a w) =
      ((1 + 2 * dotp a w + sqnorm w) * (-sqnorm a) +
        (1 - sqnorm a) * (-dotp a w)) *
        (1 / (1 + 2 * dotp a w + sqnorm a * sqnorm w)) := by
    have h := dotp_lin_right (fun i => -a i)
      (1 + 2 * dotp a w + sqnorm w) (1 - sqnorm a)
      (1 / (1 + 2 * dotp a w + sqnorm a * sqnorm w)) a w
    rw [show dotp (fun i => -a i) a = -sqnorm a by
        rw [dotp_neg_left, dotp_self],
      show dotp (fun i => -a i) w = -dotp a w from dotp_neg_left a w] at h
    exact h
  have hpj : ∀ j, mobiusAddF a w j =
      ((1 + 2 * dotp a w + sqnorm w) * a j + (1 - sqnorm a) * w j) *
        (1 / (1 + 2 * dotp a w + sqnorm a * sqnorm w)) := fun j => rfl
  funext j
  have houter : mobiusAddF (fun i => -a i) (mobiusAddF a w) j =
      ((1 + 2 * dotp (fun i => -a i) (mobiusAddF a w) +
          sqnorm (mobiusAddF a w)) * (-a j) +
        (1 - sqnorm (fun i => -a i)) * mobiusAddF a w j) *
        (1 / (1 + 2 * dotp (fun i => -a i) (mobiusAddF a w) +
          sqnorm (fun i => -a i) * sqnorm (mobiusAddF a w))) := rfl
  rw [houter, sqnorm_neg, hY, hE, hpj]
  have hD2 : 1 + 2 * (((1 + 2 * dotp a w + sqnorm w) * (-sqnorm a) +
        (1 - sqnorm a) * (-dotp a w)) *
        (1 / (1 + 2 * dotp a w + sqnorm a * sqnorm w))) +
      sqnorm a * (((1 + 2 * dotp a w + sqnorm w) ^ 2 * sqnorm a +
        2 * ((1 + 2 * dotp a w + sqnorm w) * (1 - sqnorm a)) * dotp a w +
        (1 - sqnorm a) ^ 2 * sqnorm w) *
        (1 / (1 + 2 * dotp a w + sqnorm a * sqnorm w)) ^ 2) =
      (1 - sqnorm a) ^ 2 *
        (1 / (1 + 2 * dotp a w + sqnorm a * sqnorm w)) := by
    field_simp
    ring
  rw [hD2, mul_one_div, div_eq_iff (by positivity)]
  field_simp
  ring

/-! ### Evaluating `log` on a successful Möbius difference -/

lemma log_eval_ok {d : ℕ} (p bp : V d)
    (h1 : belongs TOLERANCE (fun i => -bp i)) (h2 : belongs TOLERANCE p) :
    log p bp = Except.ok
      (if isclose (enorm (mobiusAddF (fun i => -bp i) p)) 0 then fun _ => 0
        else fun j =>
          ((1 - enorm bp ^ 2) *
              arctanh (enorm (mobiusAddF (fun i => -bp i) p))) *
            (mobiusAddF (fun i => -bp i) p j /
              enorm (mobiusAddF (fun i => -bp i) p))) := by
  unfold log
  rw [mobius_add, if_pos ⟨h1, h2⟩]

/-! ### C6: the `log`/`exp` round trip -/

lemma dotp_zero_left {d : ℕ} (b : V d) :
    dotp (fun _ : Fin d => (0 : ℝ)) b = 0 := by
  simp [dotp]

lemma mobiusAddF_zero_left {d : ℕ} (b : V d) :
    mobiusAddF (fun _ : Fin d => (0 : ℝ)) b = b := by
  funext i
  simp only [mobiusAddF, sqnorm_zero, dotp_zero_left]
  ring

/-- C6 counterexample.  The claim fails as stated: in dimension one, at the
base point `0` (in the ball) with the nonzero tangent vector `(1e-7)` whose
Möbius operand stays in the ball, the round trip returns the zero vector,
not the tangent vector, because the squared tangent norm `1e-14` is below
the near-zero threshold `1e-8` and `exp` snaps its output to the base point.
-/
theorem round_trip_counterexample :
    belongs TOLERANCE (fun _ : Fin 1 => (0 : ℝ)) ∧
      (fun _ : Fin 1 => (1e-7 : ℝ)) 0 ≠ 0 ∧
      belongs TOLERANCE (fun _ : Fin 1 =>
        (1e-7 : ℝ) * (1 / EPSILON) *
          Real.tanh (1 / (1 - enorm (fun _ : Fin 1 => (0 : ℝ)) ^ 2) *
            EPSILON)) ∧
      Except.bind
          (exp (fun _ : Fin 1 => (1e-7 : ℝ)) (fun _ : Fin 1 => (0 : ℝ)))
          (fun p => log p (fun _ : Fin 1 => (0 : ℝ))) =
        Except.ok (fun _ : Fin 1 => (0 : ℝ)) ∧
      (fun _ : Fin 1 => (0 : ℝ)) ≠ (fun _ : Fin 1 => (1e-7 : ℝ)) := by
  have hz : isclose (sqnorm (fun _ : Fin 1 => (1e-7 : ℝ))) 0 := by
    rw [sqnorm_one_dim]
    unfold isclose
    rw [sub_zero, abs_zero, mul_zero, add_zero,
      abs_of_nonneg (by norm_num : (0 : ℝ) ≤ ((1e-7 : ℝ)) ^ 2)]
    norm_num
  have hEinv : (1 : ℝ) / EPSILON = 1e6 := by
    unfold EPSILON
    norm_num
  have hop : belongs TOLERANCE (fun _ : Fin 1 =>
      (1e-7 : ℝ) * (1 / EPSILON) *
        Real.tanh (1 / (1 - enorm (fun _ : Fin 1 => (0 : ℝ)) ^ 2) *
          EPSILON)) := by
    unfold belongs TOLERANCE
    rw [sqnorm_one_dim, hEinv]
    have h1 := tanh_lt_one'
      (1 / (1 - enorm (fun _ : Fin 1 => (0 : ℝ)) ^ 2) * EPSILON)
    have h0 : (0 : ℝ) ≤ Real.tanh
        (1 / (1 - enorm (fun _ : Fin 1 => (0 : ℝ)) ^ 2) * EPSILON) := by
      apply tanh_nonneg_of
      rw [enorm_zero]
      unfold EPSILON
      norm_num
    nlinarith [h0, h1]
  have hexp : exp (fun _ : Fin 1 => (1e-7 : ℝ)) (fun _ : Fin 1 => (0 : ℝ)) =
      Except.ok (fun _ : Fin 1 => (0 : ℝ)) := by
    unfold exp
    simp only [hz, ite_true]
    rw [mobius_add, if_pos ⟨belongs_zero, hop⟩]
  refine ⟨belongs_zero, by norm_num, hop, ?_, ?_⟩
  · rw [show Except.bind
        (exp (fun _ : Fin 1 => (1e-7 : ℝ)) (fun _ : Fin 1 => (0 : ℝ)))
        (fun p => log p (fun _ : Fin 1 => (0 : ℝ))) =
          log (fun _ : Fin 1 => (0 : ℝ)) (fun _ : Fin 1 => (0 : ℝ)) by
      rw [hexp]
      rfl]
    exact log_self_ok _ belongs_zero
  · intro h
    have h0 := congrFun h 0
    norm_num at h0

/-- C6 amended.  For a base point in the ball and a tangent vector whose
squared norm is above the near-zero threshold (so it is not snapped to the
base point), such that both the Möbius operand of `exp` and the returned
point of `exp` lie in the ball, the round trip is exact:
`log (exp v bp) bp = v`. -/
theorem round_trip_small_tangent_amended {d : ℕ} (v bp : V d)
    (hbp : belongs TOLERANCE bp)
    (hv : ¬ isclose (sqnorm v) 0)
    (hop : belongs TOLERANCE (exp_operand v bp))
    (hout : belongs TOLERANCE (mobiusAddF bp (exp_operand v bp))) :
    Except.bind (exp v bp) (fun p => log p bp) = Except.ok v := by
  have hsv : (1e-8 : ℝ) < sqnorm v := by
    unfold isclose at hv
    push_neg at hv
    rw [sub_zero, abs_zero, mul_zero, add_zero,
      abs_of_nonneg (sqnorm_nonneg v)] at hv
    exact hv
  have hv0 : (0 : ℝ) < sqnorm v := lt_trans (by norm_num) hsv
  have hnv : (0 : ℝ) < enorm v := Real.sqrt_pos.mpr hv0
  have hnv4 : (1e-4 : ℝ) < enorm v := by
    have hs := Real.sqrt_lt_sqrt (by norm_num : (0 : ℝ) ≤ 1e-8) hsv
    rwa [show (1e-8 : ℝ) = (1e-4 : ℝ) ^ 2 by norm_num,
      Real.sqrt_sq (by norm_num : (0 : ℝ) ≤ (1e-4 : ℝ))] at hs
  have hx1 : sqnorm bp < 1 := belongs_lt_one hbp
  have hx0 := sqnorm_nonneg bp
  have hxpos : (0 : ℝ) < 1 - sqnorm bp := by linarith
  have hged : (1 : ℝ) ≤ 1 / (1 - enorm bp ^ 2) := by
    rw [enorm_sq, le_div_iff hxpos, one_mul]
    linarith
  have hA4 : (1e-4 : ℝ) < 1 / (1 - enorm bp ^ 2) * enorm v := by
    have h1 : 1 * enorm v ≤ 1 / (1 - enorm bp ^ 2) * enorm v :=
      mul_le_mul_of_nonneg_right hged hnv.le
    rw [one_mul] at h1
    linarith
  have hA0 : (0 : ℝ) ≤ 1 / (1 - enorm bp ^ 2) * enorm v := by linarith
  have hF0 : (0 : ℝ) ≤ Real.tanh (1 / (1 - enorm bp ^ 2) * enorm v) :=
    tanh_nonneg_of hA0
  have hF8 : (1e-8 : ℝ) < Real.tanh (1 / (1 - enorm bp ^ 2) * enorm v) := by
    apply lt_tanh_of_exp
    have hexp1 := Real.add_one_le_exp
      (2 * (1 / (1 - enorm bp ^ 2) * enorm v))
    have h2 := mul_le_mul_of_nonneg_left hexp1
      (by norm_num : (0 : ℝ) ≤ 1 - 1e-8)
    nlinarith [h2, hA4]
  have hF1 : Real.tanh (1 / (1 - enorm bp ^ 2) * enorm v) < 1 :=
    tanh_lt_one' _
  have hw_eq : exp_operand v bp = fun i => v i *
      ((1 / enorm v) * Real.tanh (1 / (1 - enorm bp ^ 2) * enorm v)) := by
    funext i
    unfold exp_operand
    ring
  have hwy : sqnorm (exp_operand v bp) =
      Real.tanh (1 / (1 - enorm bp ^ 2) * enorm v) ^ 2 := by
    rw [hw_eq, sqnorm_mul_const]
    calc sqnorm v * ((1 / enorm v) *
          Real.tanh (1 / (1 - enorm bp ^ 2) * enorm v)) ^ 2
        = (sqnorm v / enorm v ^ 2) *
            Real.tanh (1 / (1 - enorm bp ^ 2) * enorm v) ^ 2 := by ring
      _ = 1 * Real.tanh (1 / (1 - enorm bp ^ 2) * enorm v) ^ 2 := by
          rw [enorm_sq, div_self hv0.ne']
      _ = _ := one_mul _
  have hnw : enorm (exp_operand v bp) =
      Real.tanh (1 / (1 - enorm bp ^ 2) * enorm v) := by
    rw [enorm, hwy, Real.sqrt_sq hF0]
  have hwlt : sqnorm (exp_operand v bp) < 1 := belongs_lt_one hop
  have hexpok := exp_not_zero_tan_ok v bp hv hbp hop
  have hnegbel : belongs TOLERANCE (fun i => -bp i) := (belongs_neg bp).mpr hbp
  have hcancel := mobius_left_cancel bp (exp_operand v bp) hx1 hwlt
  have hniso : ¬ isclose (Real.tanh (1 / (1 - enorm bp ^ 2) * enorm v)) 0 := by
    unfold isclose
    rw [sub_zero, abs_zero, mul_zero, add_zero, abs_of_nonneg hF0]
    intro hcon
    linarith
  rw [show Except.bind (exp v bp) (fun p => log p bp) =
      log (mobiusAddF bp (exp_operand v bp)) bp by
    rw [hexpok]
    rfl]
  rw [log_eval_ok _ bp hnegbel hout, hcancel, hnw, if_neg hniso]
  congr 1
  funext j
  rw [arctanh_tanh]
  have hwj : exp_operand v bp j = v j *
      ((1 / enorm v) * Real.tanh (1 / (1 - enorm bp ^ 2) * enorm v)) :=
    congrFun hw_eq j
  rw [hwj]
  have he2 : (1 : ℝ) - enorm bp ^ 2 ≠ 0 := by
    rw [enorm_sq]
    linarith
  have hFne : Real.tanh (1 / (1 - enorm bp ^ 2) * enorm v) ≠ 0 :=
    ne_of_gt (by linarith)
  field_simp
  rw [show Real.tanh (enorm v / (1 - enorm bp ^ 2)) =
      Real.tanh (1 / (1 - enorm bp ^ 2) * enorm v) from by
    rw [show enorm v / (1 - enorm bp ^ 2) =
      1 / (1 - enorm bp ^ 2) * enorm v from by ring]]
  rw [show enorm v * (v j * Real.tanh (1 / (1 - enorm bp ^ 2) * enorm v)) =
    v j * (enorm v * Real.tanh (1 / (1 - enorm bp ^ 2) * enorm v)) from by
      ring]
  rw [mul_div_assoc, div_self (mul_ne_zero hnv.ne' hFne), mul_one]

/-- Witness for the amended C6 at the origin with tangent `(1/2)`. -/
theorem round_trip_small_tangent_amended_witness :
    Except.bind
        (exp (fun _ : Fin 1 => (1 / 2 : ℝ)) (fun _ : Fin 1 => (0 : ℝ)))
        (fun p => log p (fun _ : Fin 1 => (0 : ℝ))) =
      Except.ok (fun _ : Fin 1 => (1 / 2 : ℝ)) := by
  have henormv : enorm (fun _ : Fin 1 => (1 / 2 : ℝ)) = 1 / 2 := by
    rw [enorm, sqnorm_one_dim, Real.sqrt_sq (by norm_num : (0 : ℝ) ≤ 1 / 2)]
  have hopeq : exp_operand (fun _ : Fin 1 => (1 / 2 : ℝ))
      (fun _ : Fin 1 => (0 : ℝ)) =
      (fun _ : Fin 1 => Real.tanh (1 / 2)) := by
    funext i
    unfold exp_operand
    rw [henormv, enorm_zero]
    norm_num
  have htanh9 : Real.tanh (1 / 2 : ℝ) < 0.9 := by
    apply tanh_lt_of_exp
    have he : Real.exp (2 * (1 / 2 : ℝ)) = Real.exp 1 := by norm_num
    rw [he]
    nlinarith [Real.exp_one_lt_d9]
  have htanh0 : (0 : ℝ) ≤ Real.tanh (1 / 2 : ℝ) :=
    tanh_nonneg_of (by norm_num)
  have hopbel : belongs TOLERANCE (exp_operand (fun _ : Fin 1 => (1 / 2 : ℝ))
      (fun _ : Fin 1 => (0 : ℝ))) := by
    rw [hopeq]
    unfold belongs TOLERANCE
    rw [sqnorm_one_dim]
    nlinarith [htanh9, htanh0]
  have houtbel : belongs TOLERANCE
      (mobiusAddF (fun _ : Fin 1 => (0 : ℝ))
        (exp_operand (fun _ : Fin 1 => (1 / 2 : ℝ))
          (fun _ : Fin 1 => (0 : ℝ)))) := by
    rw [mobiusAddF_zero_left]
    exact hopbel
  have hnz : ¬ isclose (sqnorm (fun _ : Fin 1 => (1 / 2 : ℝ))) 0 := by
    rw [sqnorm_one_dim]
    unfold isclose
    rw [sub_zero, abs_zero, mul_zero, add_zero,
      abs_of_nonneg (by norm_num : (0 : ℝ) ≤ ((1 / 2 : ℝ)) ^ 2)]
    norm_num
  exact round_trip_small_tangent_amended _ _ belongs_zero hnz hopbel houtbel

end PoincareBallModel
